import Mathlib

/-!
Verification of the remotion render server's job-queue and worker-orchestration
subsystem.  The durable multi-process worker (`getNextJob`, `completeJob`,
`failJob`, `processJob`, `withRetry`, the progress throttle, the worker loop
and the shutdown coordinator) is embedded from the production worker source;
the in-memory single-process render queue (`processRender`, `queueRender`, the
cancel endpoint, the promise chain) is embedded from the express server source.
SQL state lives in explicit `DB` values; a transaction is modelled by building
the post-transaction state locally and making it durable only on COMMIT, with
ROLLBACK returning the pre-transaction state.
-/

namespace RenderServer

/-! ### Configuration constants (CONFIG section of the worker) -/

def MAX_PARALLEL : Nat := 4

def POLL_INTERVAL : Nat := 1500

def DB_RETRY_ATTEMPTS : Nat := 3

def DB_RETRY_DELAY_MS : Nat := 1000

def PROGRESS_UPDATE_INTERVAL_MS : Nat := 5000

/-! ### Data model: the `render_jobs` and `users` tables -/

inductive Status where
  | queued
  | rendering
  | completed
  | failed
deriving DecidableEq, Repr

/-- The `videoInfo` part of a job's `input_props`, the only part of the opaque
payload that the worker itself interprets (for the credit computation). -/
structure VideoInfo where
  durationInFrames : Nat
  fps : Nat
deriving DecidableEq, Repr

/-- A row of the `render_jobs` table. -/
structure Job where
  id : Nat
  status : Status
  created_at : Nat
  started_at : Option Nat
  completed_at : Option Nat
  progress : ℚ
  output_url : Option String
  error : Option String
  user_id : Nat
  videoInfo : VideoInfo
deriving DecidableEq, Repr

/-- A row of the `users` table (the billing ledger). -/
structure User where
  id : Nat
  credits : Int
  updated_at : Nat
deriving DecidableEq, Repr

/-- The durable queue store: both tables. -/
structure DB where
  render_jobs : List Job
  users : List User
deriving DecidableEq, Repr

/-! ### getNextJob: the atomic claim protocol

`SELECT * FROM render_jobs WHERE status = 'queued' ORDER BY created_at ASC
LIMIT 1 FOR UPDATE SKIP LOCKED` inside a transaction; if a row is found its
status is set to `rendering` and `started_at = NOW()`, then COMMIT; the row as
selected (pre-update) is returned.  `ORDER BY ... LIMIT 1` is modelled as the
first row attaining the minimal `created_at` among queued rows. -/

/-- Keeps the row with the strictly smaller `created_at` (the earlier row wins
ties, matching a stable sort's first row). -/
def pickOlder (a b : Job) : Job :=
  if b.created_at < a.created_at then b else a

def oldestQueued (jobs : List Job) : Option Job :=
  match jobs.filter (fun j => j.status = Status.queued) with
  | [] => none
  | j :: rest => some (rest.foldl pickOlder j)

/-- One call of `getNextJob` against store state `db` at time `now`: returns
the claimed row (as selected, before the update) and the committed store
state; `(none, db)` models ROLLBACK with no queued row found. -/
def getNextJob (db : DB) (now : Nat) : Option Job × DB :=
  match oldestQueued db.render_jobs with
  | none => (none, db)
  | some job =>
      (some job,
        { db with
          render_jobs := db.render_jobs.map (fun j =>
            if j.id = job.id then
              { j with status := Status.rendering, started_at := some now }
            else j) })

/-! ### completeJob: terminal status write + credit debit in one transaction -/

/-- The first UPDATE of `completeJob`:
`SET status = 'completed', output_url = $1, progress = 1, completed_at = NOW()`. -/
def updateJobCompleted (db : DB) (jobId : Nat) (url : String) (now : Nat) : DB :=
  { db with
    render_jobs := db.render_jobs.map (fun j =>
      if j.id = jobId then
        { j with
          status := Status.completed
          output_url := some url
          progress := 1
          completed_at := some now }
      else j) }

/-- The second UPDATE of `completeJob`:
`SET credits = GREATEST(credits - $1, 0), updated_at = NOW()`. -/
def updateUserDebit (db : DB) (userId : Nat) (creditsToDeduct : Int) (now : Nat) : DB :=
  { db with
    users := db.users.map (fun u =>
      if u.id = userId then
        { u with credits := max (u.credits - creditsToDeduct) 0, updated_at := now }
      else u) }

/-- Where a simulated infrastructure failure strikes inside the `completeJob`
transaction (the code path then runs `ROLLBACK` and rethrows). -/
inductive FailPoint where
  | beforeFirstWrite
  | betweenWrites
  | beforeCommit
deriving DecidableEq, Repr

/-- `completeJob jobId url userId creditsToDeduct` run at time `now` with an
optional injected failure.  Returns the durable store state together with
`some errorMessage` when the transaction failed (after ROLLBACK) and `none`
when it committed.  Writes executed before a failure are transaction-local
and are discarded by the ROLLBACK. -/
def completeJob (db : DB) (jobId : Nat) (url : String) (userId : Nat)
    (creditsToDeduct : Int) (now : Nat) (fail : Option FailPoint) :
    DB × Option String :=
  if fail = some FailPoint.beforeFirstWrite then
    (db, some "completeJob failed")
  else
    let tx1 := updateJobCompleted db jobId url now
    if fail = some FailPoint.betweenWrites then
      (db, some "completeJob failed")
    else
      let tx2 := updateUserDebit tx1 userId creditsToDeduct now
      if fail = some FailPoint.beforeCommit then
        (db, some "completeJob failed")
      else
        (tx2, none)

/-! ### failJob: best-effort failure record -/

/-- `failJob` truncates the error message (`errorMessage.slice(0, 1000)`) and
runs `UPDATE render_jobs SET status = 'failed', error = $1 WHERE id = $2`. -/
def failJob (db : DB) (jobId : Nat) (error : String) : DB :=
  { db with
    render_jobs := db.render_jobs.map (fun j =>
      if j.id = jobId then
        { j with status := Status.failed, error := some (error.take 1000) }
      else j) }

/-! ### processJob: the per-job pipeline -/

/-- Outcome of one external pipeline step (render or upload): the value on
success, the thrown error's message on failure. -/
inductive StepResult (α : Type) where
  | ok (val : α)
  | err (msg : String)
deriving DecidableEq, Repr

/-- `Math.ceil(durationInFrames / fps / 60 * 2)`: credits to deduct. -/
def computeCredits (v : VideoInfo) : Int :=
  ⌈((v.durationInFrames : ℚ) / (v.fps : ℚ) / 60) * 2⌉

/-- `processJob`: render, then upload, then `completeJob` with the computed
debit; any thrown step error is caught and recorded via `failJob`, with no
debit.  (`cleanupFile` touches only the local filesystem, never the store.)
The render and upload steps are external collaborators, passed as outcomes. -/
def processJob (db : DB) (job : Job) (now : Nat)
    (render : StepResult String) (upload : StepResult String) : DB :=
  match render with
  | StepResult.err msg => failJob db job.id msg
  | StepResult.ok _outputFile =>
      match upload with
      | StepResult.err msg => failJob db job.id msg
      | StepResult.ok url =>
          (completeJob db job.id url job.user_id (computeCredits job.videoInfo) now none).1

/-- Looks a user up by id (`SELECT ... FROM users WHERE id = $1`). -/
def findUser (db : DB) (userId : Nat) : Option User :=
  db.users.find? (fun u => u.id = userId)

/-- Looks a job up by id. -/
def findJob (db : DB) (jobId : Nat) : Option Job :=
  db.render_jobs.find? (fun j => j.id = jobId)

/-! ### Concrete fixtures (used by witness theorems) -/

def sampleUser : User := { id := 7, credits := 0, updated_at := 0 }

def sampleJob : Job :=
  { id := 1, status := Status.queued, created_at := 10, started_at := none,
    completed_at := none, progress := 0, output_url := none, error := none,
    user_id := 7, videoInfo := { durationInFrames := 3600, fps := 30 } }

def sampleJob2 : Job :=
  { sampleJob with id := 2, created_at := 5 }

def sampleDB : DB := { render_jobs := [sampleJob, sampleJob2], users := [sampleUser] }

/-! ### withRetry: bounded retry with linear backoff

`for (attempt = 1; attempt <= maxAttempts; attempt++) { try { return await op() }
catch { lastError = err; if (attempt < maxAttempts) await sleep(DELAY * attempt) } }
throw new Error(context + " failed after " + maxAttempts + " attempts: " + lastError.message)`.
The operation is modelled as a function from the attempt number to that
attempt's outcome; the trace records the attempts made and the sleeps issued. -/

structure RetryResult (α : Type) where
  result : Except String α
  attemptsMade : Nat
  sleeps : List Nat
deriving Repr

/-- The error thrown when all attempts are exhausted (JS renders a missing
`lastError?.message` as `undefined`). -/
def compositeError (context : String) (maxAttempts : Nat) (lastError : Option String) : String :=
  context ++ " failed after " ++ toString maxAttempts ++ " attempts: " ++
    (match lastError with
     | some m => m
     | none => "undefined")

/-- The retry loop from loop counter `attempt` with `remaining` iterations of
the `for` loop left (`remaining = maxAttempts + 1 - attempt` at every call). -/
def withRetryGo (op : Nat → Except String α) (context : String) (maxAttempts : Nat) :
    Nat → Nat → Option String → RetryResult α
  | attempt, 0, lastError =>
      { result := Except.error (compositeError context maxAttempts lastError)
        attemptsMade := attempt - 1
        sleeps := [] }
  | attempt, remaining + 1, _lastError =>
      match op attempt with
      | Except.ok v =>
          { result := Except.ok v, attemptsMade := attempt, sleeps := [] }
      | Except.error e =>
          let rest := withRetryGo op context maxAttempts (attempt + 1) remaining (some e)
          { result := rest.result
            attemptsMade := rest.attemptsMade
            sleeps := (if attempt < maxAttempts then [DB_RETRY_DELAY_MS * attempt] else []) ++ rest.sleeps }

def withRetry (op : Nat → Except String α) (context : String) (maxAttempts : Nat) :
    RetryResult α :=
  withRetryGo op context maxAttempts 1 maxAttempts none

/-! ### The progress throttle inside renderJob

`let lastProgressUpdate = 0; let lastProgressValue = 0;` then on each
`onProgress({progress})`: `progressRounded = Math.round(progress * 100) / 100`;
write (and update both trackers) only when
`now - lastProgressUpdate > PROGRESS_UPDATE_INTERVAL_MS && progressRounded !== lastProgressValue`. -/

structure ProgressState where
  lastProgressUpdate : Nat
  lastProgressValue : ℚ
deriving DecidableEq, Repr

/-- `Math.round(p * 100) / 100` (round half up, exact arithmetic). -/
def roundProgress (p : ℚ) : ℚ :=
  (⌊p * 100 + 1 / 2⌋ : ℚ) / 100

/-- One progress callback at wall-clock `now`: returns the new throttle state
and the durable write issued, if any. -/
def onProgress (st : ProgressState) (now : Nat) (progress : ℚ) :
    ProgressState × Option ℚ :=
  let progressRounded := roundProgress progress
  if PROGRESS_UPDATE_INTERVAL_MS < now - st.lastProgressUpdate ∧
      progressRounded ≠ st.lastProgressValue then
    ({ lastProgressUpdate := now, lastProgressValue := progressRounded }, some progressRounded)
  else
    (st, none)

/-- Runs a sequence of `(now, progress)` callbacks through the throttle,
collecting the issued writes as `(time, rounded value)` pairs. -/
def runProgress (st : ProgressState) : List (Nat × ℚ) → ProgressState × List (Nat × ℚ)
  | [] => (st, [])
  | (now, p) :: rest =>
      match onProgress st now p with
      | (st1, some v) =>
          let r := runProgress st1 rest
          (r.1, (now, v) :: r.2)
      | (st1, none) => runProgress st1 rest

/-- The settled outcome of the `k`-th issued progress write (`safeQuery`
may fail; which writes fail is an environment choice). -/
def progressWriteResult (writeFails : Nat → Bool) (k : Nat) : Except String Unit :=
  if writeFails k then Except.error "progress write failed" else Except.ok ()

def outputPathFor (job : Job) : String :=
  "renders/" ++ toString job.id ++ ".mp4"

/-- `renderJob`: runs the render with the throttled progress sink and returns
`(settled render result, issued writes)`.  Every issued write goes through
`.catch(err => console.error(...))`: both branches discard the outcome, so a
write failure is logged and the render continues to completion. -/
def renderJob (job : Job) (events : List (Nat × ℚ)) (writeFails : Nat → Bool) :
    Except String String × List (Nat × ℚ) :=
  let writes := (runProgress { lastProgressUpdate := 0, lastProgressValue := 0 } events).2
  let settle := fun k =>
    match progressWriteResult writeFails k with
    | Except.ok _ => ()
    | Except.error _ => ()
  let _settled := (List.range writes.length).map settle
  (Except.ok (outputPathFor job), writes)

/-! ### Worker loop and shutdown coordinator -/

structure LoopState where
  shuttingDown : Bool
  activeRenders : Nat
  db : DB
deriving Repr

/-- One pass of `while (!shuttingDown) { ... }` at wall-clock `now`: the flag
is checked first; then the backpressure check (`activeRenders >= MAX_PARALLEL`
sleeps without claiming); otherwise `getNextJob` runs and, if a job was
claimed, `activeRenders` is incremented and the job dispatched.  The second
component is the claim made by this pass, if any. -/
def loopIter (s : LoopState) (now : Nat) : LoopState × Option Job :=
  if s.shuttingDown then (s, none)
  else if MAX_PARALLEL ≤ s.activeRenders then (s, none)
  else
    match getNextJob s.db now with
    | (none, db1) => ({ s with db := db1 }, none)
    | (some job, db1) =>
        ({ s with db := db1, activeRenders := s.activeRenders + 1 }, some job)

/-- The claims made by successive loop passes at the given wall-clock times. -/
def loopClaims (s : LoopState) : List Nat → List Job
  | [] => []
  | now :: rest =>
      match loopIter s now with
      | (s1, some job) => job :: loopClaims s1 rest
      | (s1, none) => loopClaims s1 rest

def GRACEFUL_DEADLINE_MS : Nat := 30000

structure ShutdownResult where
  exitCode : Nat
  poolClosed : Bool
  exitTime : Nat
deriving DecidableEq, Repr

/-- The shutdown coordinator after the flag is set: `gracefulShutdown` polls
`activeRenders` at t = 0, 1000, 2000, ... (sleep(1000) between polls); at the
first poll observing zero it awaits `pool.end()` (errors swallowed) and calls
`process.exit(0)`.  The `forceExit` timer, registered first, fires at 30000ms
and calls `process.exit(1)` if the graceful path has not exited by then, so
only the polls strictly before the deadline can exit cleanly.  `active t` is
the value of the `activeRenders` counter at time `t`. -/
def shutdownRun (active : Nat → Nat) : ShutdownResult :=
  match (List.range (GRACEFUL_DEADLINE_MS / 1000)).find? (fun k => active (1000 * k) = 0) with
  | some k => { exitCode := 0, poolClosed := true, exitTime := 1000 * k }
  | none => { exitCode := 1, poolClosed := false, exitTime := GRACEFUL_DEADLINE_MS }

end RenderServer

namespace RenderServer.Claim

/-!
### Fine-grained model of concurrent `getNextJob` callers

Each caller runs the claim transaction in two atomic phases, matching the
row-locking protocol: phase 1 is the `SELECT ... FOR UPDATE SKIP LOCKED`,
which locks the oldest queued row not locked by another in-flight transaction
(rows locked by in-flight claims are invisible to the select, so `freeQueued`
holds exactly the queued-and-unlocked rows in `created_at` order); phase 2 is
the `UPDATE ... COMMIT`, which makes the row `rendering` and releases the
lock.  A schedule interleaves the callers' phases arbitrarily.
-/

inductive CallerState where
  | idle
  | holding (jobId : Nat)
  | doneNone
  | doneSome (jobId : Nat)
deriving DecidableEq, Repr

structure SysState where
  freeQueued : List Nat
  callers : List CallerState
deriving DecidableEq, Repr

/-- Caller `i` takes its next atomic phase (callers already done, and indices
out of range, do nothing). -/
def step (s : SysState) (i : Nat) : SysState :=
  match s.callers[i]? with
  | some CallerState.idle =>
      match s.freeQueued with
      | [] => { s with callers := s.callers.set i CallerState.doneNone }
      | j :: rest =>
          { freeQueued := rest, callers := s.callers.set i (CallerState.holding j) }
  | some (CallerState.holding j) =>
      { s with callers := s.callers.set i (CallerState.doneSome j) }
  | _ => s

def run (s : SysState) : List Nat → SysState
  | [] => s
  | i :: rest => run (step s i) rest

/-- The rows currently locked by in-flight transactions (observed queued rows). -/
def heldJobs (cs : List CallerState) : List Nat :=
  cs.filterMap (fun c =>
    match c with
    | CallerState.holding j => some j
    | _ => none)

/-- The rows successfully claimed (committed) so far, one per succeeding caller. -/
def claimedJobs (cs : List CallerState) : List Nat :=
  cs.filterMap (fun c =>
    match c with
    | CallerState.doneSome j => some j
    | _ => none)

def isDone (c : CallerState) : Bool :=
  match c with
  | CallerState.doneNone => true
  | CallerState.doneSome _ => true
  | _ => false

def doneNoneCount (cs : List CallerState) : Nat :=
  cs.countP (fun c => c = CallerState.doneNone)

/-- The initial state: `M` queued jobs (their ids, FIFO order) and `N` idle
callers. -/
def init (jobIds : List Nat) (N : Nat) : SysState :=
  { freeQueued := jobIds, callers := List.replicate N CallerState.idle }

/-- Every job id the system tracks, partitioned by where it currently stands:
still claimable, locked by an in-flight transaction, or claimed. -/
def mset (s : SysState) : List Nat :=
  s.freeQueued ++ heldJobs s.callers ++ claimedJobs s.callers

/-- Once some caller has returned `none`, the claimable pool was empty at that
moment — and it stays empty, since `freeQueued` never grows. -/
def NoneImpliesEmpty (s : SysState) : Prop :=
  (∃ c ∈ s.callers, c = CallerState.doneNone) → s.freeQueued = []

end RenderServer.Claim

namespace RenderServer.MemQueue

/-!
### The in-memory job registry (`makeRenderQueue`) and its HTTP endpoints

`jobs : Map<string, JobState>` with a single promise chain
`queue = queue.then(() => processRender(jobId))`.  A JS `Map` preserves
insertion order and `set` on an existing key overwrites in place, so the
registry is an insertion-ordered association list.
-/

structure JobData where
  style : String
  captionPadding : Int
  videoUrl : String
  durationInFrames : Nat
  fps : Nat
deriving DecidableEq, Repr

inductive JobState where
  | queued (data : JobData)
  | inProgress (progress : ℚ) (data : JobData)
  | completed (videoUrl : String) (data : JobData)
  | failed (error : String) (data : JobData)
deriving DecidableEq, Repr

def JobState.data : JobState → JobData
  | JobState.queued d => d
  | JobState.inProgress _ d => d
  | JobState.completed _ d => d
  | JobState.failed _ d => d

abbrev Registry := List (String × JobState)

/-- `jobs.get(jobId)`. -/
def getJob (m : Registry) (k : String) : Option JobState :=
  (m.find? (fun kv => kv.1 = k)).map (fun kv => kv.2)

/-- `jobs.set(jobId, v)`: overwrite in place, or append when the key is new. -/
def setJob (m : Registry) (k : String) (v : JobState) : Registry :=
  if m.any (fun kv => kv.1 = k) then
    m.map (fun kv => if kv.1 = k then (k, v) else kv)
  else
    m ++ [(k, v)]

/-- `jobs.delete(jobId)` (the cancel handle of a queued job). -/
def deleteJob (m : Registry) (k : String) : Registry :=
  m.filter (fun kv => kv.1 ≠ k)

/-- Registry plus the set of jobIds whose render `cancelSignal` has been
triggered (the cancel handle of an in-progress job). -/
structure QueueState where
  jobs : Registry
  cancelledSignals : List String
deriving DecidableEq, Repr

inductive RenderOutcome where
  | success
  | failure (msg : String)
deriving DecidableEq, Repr

def renderUrl (port : Nat) (jobId : String) : String :=
  "http://localhost:" ++ toString port ++ "/renders/" ++ jobId ++ ".mp4"

/-- The settled outcome of `renderMedia` for a job: by the adapter contract it
rejects with a cancellation error when the job's cancel signal was triggered;
otherwise the external render outcome decides. -/
def renderMediaOutcome (s : QueueState) (jobId : String) (outcome : RenderOutcome) :
    RenderOutcome :=
  if jobId ∈ s.cancelledSignals then RenderOutcome.failure "renderMedia cancelled"
  else outcome

/-- The try/catch tail of `processRender` after the job was set in-progress:
a render rejection is caught and the job set to `failed`; success sets
`completed` with the local URL. -/
def processRenderFinish (s : QueueState) (jobId : String) (data : JobData)
    (port : Nat) (outcome : RenderOutcome) : QueueState :=
  match renderMediaOutcome s jobId outcome with
  | RenderOutcome.success =>
      { s with jobs := setJob s.jobs jobId (JobState.completed (renderUrl port jobId) data) }
  | RenderOutcome.failure msg =>
      { s with jobs := setJob s.jobs jobId (JobState.failed msg data) }

/-- One full `processRender(jobId)` call: the lookup throws (rejecting the
promise) when the job is absent — this happens before the try block; otherwise
the job is set in-progress with a fresh cancel handle and rendered, the
try/catch swallowing render errors.  The Bool is `true` exactly when the
returned promise fulfilled. -/
def processRender (s : QueueState) (jobId : String) (port : Nat)
    (outcome : RenderOutcome) : QueueState × Bool :=
  match getJob s.jobs jobId with
  | none => (s, false)
  | some job =>
      let s1 : QueueState :=
        { s with jobs := setJob s.jobs jobId (JobState.inProgress 0 job.data) }
      (processRenderFinish s1 jobId job.data port outcome, true)

/-- `queueRender`'s registry write: the job enters as `queued`, its cancel
handle deleting it from the registry. -/
def queueRenderSet (s : QueueState) (jobId : String) (data : JobData) : QueueState :=
  { s with jobs := setJob s.jobs jobId (JobState.queued data) }

inductive HttpResponse where
  | ok (message : String)
  | notFound (message : String)
  | badRequest (message : String)
deriving DecidableEq, Repr

/-- `app.delete("/renders/:jobId")`: 404 when the job is unknown; 400 when its
status is neither `queued` nor `in-progress`; otherwise `job.cancel()` — which
deletes a queued job from the registry, and triggers the render cancel signal
of an in-progress job. -/
def cancelEndpoint (s : QueueState) (jobId : String) : QueueState × HttpResponse :=
  match getJob s.jobs jobId with
  | none => (s, HttpResponse.notFound "Job not found")
  | some job =>
      match job with
      | JobState.queued _ =>
          ({ s with jobs := deleteJob s.jobs jobId }, HttpResponse.ok "Job cancelled")
      | JobState.inProgress _ _ =>
          ({ s with cancelledSignals := jobId :: s.cancelledSignals },
            HttpResponse.ok "Job cancelled")
      | _ => (s, HttpResponse.badRequest "Job is not cancellable")

inductive ChainState where
  | fulfilled
  | rejected
deriving DecidableEq, Repr

/-- The single promise chain: `queue = queue.then(() => processRender(jobId))`.
`.then` with only an onFulfilled handler propagates a rejection without
calling `processRender`, so once one link rejects, every later job's
`processRender` is never invoked. -/
def runChain (port : Nat) :
    QueueState → ChainState → List (String × RenderOutcome) → QueueState × ChainState
  | s, c, [] => (s, c)
  | s, ChainState.rejected, _ :: rest => runChain port s ChainState.rejected rest
  | s, ChainState.fulfilled, (jobId, outcome) :: rest =>
      match processRender s jobId port outcome with
      | (s1, true) => runChain port s1 ChainState.fulfilled rest
      | (s1, false) => runChain port s1 ChainState.rejected rest

end RenderServer.MemQueue

/-! ## Theorems -/

namespace RenderServer

theorem pickOlder_created_le_left (a b : Job) : (pickOlder a b).created_at ≤ a.created_at := by
  unfold pickOlder
  split
  · omega
  · exact le_refl _

theorem pickOlder_created_le_right (a b : Job) : (pickOlder a b).created_at ≤ b.created_at := by
  unfold pickOlder
  split
  · exact le_refl _
  · omega

theorem foldl_pickOlder_spec (rest : List Job) (j : Job) :
    rest.foldl pickOlder j ∈ j :: rest ∧
    ∀ x ∈ j :: rest, (rest.foldl pickOlder j).created_at ≤ x.created_at := by
  induction rest generalizing j with
  | nil =>
    refine ⟨by simp, ?_⟩
    intro x hx
    simp at hx
    simp [hx]
  | cons b t ih =>
    obtain ⟨ihm, ihle⟩ := ih (pickOlder j b)
    have hhead : (t.foldl pickOlder (pickOlder j b)).created_at ≤ (pickOlder j b).created_at :=
      ihle _ (List.mem_cons_self _ _)
    constructor
    · simp only [List.foldl_cons]
      rcases List.mem_cons.mp ihm with h | h
      · rw [h]
        unfold pickOlder
        split
        · exact List.mem_cons_of_mem _ (List.mem_cons_self _ _)
        · exact List.mem_cons_self _ _
      · exact List.mem_cons_of_mem _ (List.mem_cons_of_mem _ h)
    · intro x hx
      simp only [List.foldl_cons]
      rcases List.mem_cons.mp hx with rfl | hx1
      · exact le_trans hhead (pickOlder_created_le_left _ _)
      · rcases List.mem_cons.mp hx1 with rfl | hx2
        · exact le_trans hhead (pickOlder_created_le_right _ _)
        · exact ihle _ (List.mem_cons_of_mem _ hx2)

theorem oldestQueued_eq_none_iff (jobs : List Job) :
    oldestQueued jobs = none ↔ ∀ j ∈ jobs, j.status ≠ Status.queued := by
  unfold oldestQueued
  generalize hf : jobs.filter (fun j => j.status = Status.queued) = res
  cases res with
  | nil =>
    simp only [true_iff]
    intro j hj hq
    have : j ∈ jobs.filter (fun j => j.status = Status.queued) :=
      List.mem_filter.mpr ⟨hj, by simp [hq]⟩
    rw [hf] at this
    simp at this
  | cons a l =>
    refine ⟨fun h => (nomatch h), fun hall => ?_⟩
    have ha : a ∈ jobs.filter (fun j => j.status = Status.queued) := by
      rw [hf]
      exact List.mem_cons_self _ _
    have hm := List.mem_filter.mp ha
    exact absurd (by simpa using hm.2) (hall a hm.1)

theorem oldestQueued_some_spec (jobs : List Job) (job : Job)
    (h : oldestQueued jobs = some job) :
    job ∈ jobs ∧ job.status = Status.queued ∧
      ∀ j ∈ jobs, j.status = Status.queued → job.created_at ≤ j.created_at := by
  unfold oldestQueued at h
  generalize hf : jobs.filter (fun j => j.status = Status.queued) = res at h
  cases res with
  | nil => cases h
  | cons a l =>
    simp only [Option.some.injEq] at h
    obtain ⟨hm, hle⟩ := foldl_pickOlder_spec l a
    rw [h] at hm hle
    have hjob : job ∈ jobs.filter (fun j => j.status = Status.queued) := by
      rw [hf]
      exact hm
    have hj2 := List.mem_filter.mp hjob
    refine ⟨hj2.1, by simpa using hj2.2, ?_⟩
    intro j hj hq
    have hjf : j ∈ jobs.filter (fun j => j.status = Status.queued) :=
      List.mem_filter.mpr ⟨hj, by simp [hq]⟩
    rw [hf] at hjf
    exact hle j hjf

/-- C2: `getNextJob` returns none exactly when no queued job exists (leaving
the store unchanged after rollback); otherwise it selects an oldest queued job
by `created_at` (FIFO), commits `status = rendering, started_at = now` on that
row, leaves every other row and the users table unchanged, and returns the row
as it was when selected. -/
theorem getNextJob_spec (db : DB) (now : Nat) :
    ((getNextJob db now).1 = none ↔ ∀ j ∈ db.render_jobs, j.status ≠ Status.queued) ∧
    ((getNextJob db now).1 = none → (getNextJob db now).2 = db) ∧
    (∀ job, (getNextJob db now).1 = some job →
      job ∈ db.render_jobs ∧ job.status = Status.queued ∧
      (∀ j ∈ db.render_jobs, j.status = Status.queued → job.created_at ≤ j.created_at) ∧
      (getNextJob db now).2.users = db.users ∧
      (getNextJob db now).2.render_jobs = db.render_jobs.map (fun j =>
        if j.id = job.id then { j with status := Status.rendering, started_at := some now }
        else j)) := by
  cases hq : oldestQueued db.render_jobs with
  | none =>
    have h1 : getNextJob db now = (none, db) := by
      unfold getNextJob
      rw [hq]
    rw [h1]
    refine ⟨⟨fun _ => (oldestQueued_eq_none_iff _).mp hq, fun _ => rfl⟩, fun _ => rfl, ?_⟩
    intro job h
    exact absurd h (by simp)
  | some job0 =>
    have h1 : getNextJob db now =
        (some job0,
          { db with render_jobs := db.render_jobs.map (fun j =>
              if j.id = job0.id then
                { j with status := Status.rendering, started_at := some now }
              else j) }) := by
      unfold getNextJob
      rw [hq]
    obtain ⟨hm, hst, hle⟩ := oldestQueued_some_spec _ _ hq
    rw [h1]
    refine ⟨⟨fun h => absurd h (by simp), fun hall => absurd hst (hall job0 hm)⟩,
      fun h => absurd h (by simp), ?_⟩
    intro job h
    have hj : job0 = job := by
      simpa using h
    subst hj
    exact ⟨hm, hst, hle, rfl, rfl⟩

/-- C2 witness: on a concrete store holding two queued rows, `getNextJob`
claims the older one. -/
theorem getNextJob_spec_witness :
    sampleJob2 ∈ sampleDB.render_jobs ∧ sampleJob2.status = Status.queued ∧
    (getNextJob sampleDB 100).2.users = sampleDB.users :=
  have h := (getNextJob_spec sampleDB 100).2.2 sampleJob2 (by decide)
  ⟨h.1, h.2.1, h.2.2.2.1⟩

/-- C3: `completeJob` is atomic: a failure injected at any point of the
transaction (before the status write, between the status write and the debit,
or after the debit but before COMMIT) rolls back to the pre-transaction store,
leaving both the job row and the user's balance unchanged; without a failure
both the terminal status write and the debit are durably committed. -/
theorem completeJob_atomic (db : DB) (jobId : Nat) (url : String) (userId : Nat)
    (d : Int) (now : Nat) :
    (∀ fp : FailPoint,
      completeJob db jobId url userId d now (some fp) = (db, some "completeJob failed")) ∧
    completeJob db jobId url userId d now none =
      (updateUserDebit (updateJobCompleted db jobId url now) userId d now, none) := by
  refine ⟨fun fp => ?_, rfl⟩
  cases fp <;> rfl

theorem findUser_updateJobCompleted (db : DB) (jobId : Nat) (url : String) (now : Nat)
    (userId : Nat) :
    findUser (updateJobCompleted db jobId url now) userId = findUser db userId := rfl

theorem findUser_updateUserDebit (db : DB) (userId : Nat) (d : Int) (now : Nat) :
    findUser (updateUserDebit db userId d now) userId =
      Option.map (fun u => { u with credits := max (u.credits - d) 0, updated_at := now })
        (findUser db userId) := by
  unfold findUser updateUserDebit
  simp only []
  rw [List.find?_map]
  have hpf : ((fun u : User => decide (u.id = userId)) ∘
      (fun u : User =>
        if u.id = userId then { u with credits := max (u.credits - d) 0, updated_at := now }
        else u)) = (fun u : User => decide (u.id = userId)) := by
    funext u
    by_cases h : u.id = userId <;> simp [h]
  rw [hpf]
  cases hfind : db.users.find? (fun u => decide (u.id = userId)) with
  | none => rfl
  | some u0 =>
    have hp : u0.id = userId := by simpa using List.find?_some hfind
    simp [hp]

/-- C4: the debit never takes a balance below zero: for a starting balance `c`
the balance after `completeJob` with debit `d` is `max (c - d) 0`; with
`c = 0` and `d > 0` the balance stays `0`; and the completion is never blocked
by an insufficient balance (the transaction still commits). -/
theorem completeJob_credits_floor (db : DB) (jobId : Nat) (url : String) (userId : Nat)
    (d : Nat) (now : Nat) (u : User) (hu : findUser db userId = some u) :
    (completeJob db jobId url userId (d : Int) now none).2 = none ∧
    findUser (completeJob db jobId url userId (d : Int) now none).1 userId =
      some { u with credits := max (u.credits - (d : Int)) 0, updated_at := now } ∧
    0 ≤ max (u.credits - (d : Int)) 0 ∧
    (u.credits = 0 → 0 < d → max (u.credits - (d : Int)) 0 = 0) := by
  refine ⟨rfl, ?_, le_max_right _ _, fun h0 hd => ?_⟩
  · have h1 : (completeJob db jobId url userId (d : Int) now none).1 =
        updateUserDebit (updateJobCompleted db jobId url now) userId (d : Int) now := rfl
    rw [h1, findUser_updateUserDebit, findUser_updateJobCompleted, hu]
    rfl
  · rw [h0]
    apply max_eq_right
    omega

/-- C4 witness: a user at zero credits debited by 5 keeps a zero balance and
the completion still commits. -/
theorem completeJob_credits_floor_witness :
    (completeJob sampleDB 1 "renders/1.mp4" 7 ((5 : Nat) : Int) 50 none).2 = none ∧
    findUser (completeJob sampleDB 1 "renders/1.mp4" 7 ((5 : Nat) : Int) 50 none).1 7 =
      some { sampleUser with
              credits := max (sampleUser.credits - ((5 : Nat) : Int)) 0, updated_at := 50 } ∧
    max (sampleUser.credits - ((5 : Nat) : Int)) 0 = 0 :=
  have h := completeJob_credits_floor sampleDB 1 "renders/1.mp4" 7 5 50 sampleUser (by decide)
  ⟨h.1, h.2.1, h.2.2.2 (by decide) (by decide)⟩

/-- C5: a job whose pipeline fails (render failure, or upload failure after a
successful render) leaves the owning user's balance — indeed the whole users
table — unchanged: the failure path runs only `failJob`, which rewrites only
the matching job row's `status` and `error` (truncated to 1000 characters)
and touches nothing else. -/
theorem processJob_failure_no_charge (db : DB) (job : Job) (now : Nat)
    (msg f : String) (upl : StepResult String) :
    (processJob db job now (StepResult.err msg) upl).users = db.users ∧
    (processJob db job now (StepResult.ok f) (StepResult.err msg)).users = db.users ∧
    (∀ jobId e, (failJob db jobId e).users = db.users) ∧
    (∀ jobId e, (failJob db jobId e).render_jobs = db.render_jobs.map (fun j =>
      if j.id = jobId then { j with status := Status.failed, error := some (e.take 1000) }
      else j)) :=
  ⟨rfl, rfl, fun _ _ => rfl, fun _ _ => rfl⟩

end RenderServer

namespace RenderServer

theorem withRetryGo_fail {α : Type} (op : Nat → Except String α) (context : String) (N : Nat)
    (e : Nat → String) (hfail : ∀ k, op k = Except.error (e k)) :
    ∀ remaining attempt, attempt + remaining = N + 1 → 1 ≤ attempt →
      withRetryGo op context N attempt remaining (some (e (attempt - 1))) =
        { result := Except.error (compositeError context N (some (e N)))
          attemptsMade := N
          sleeps := (List.range' attempt (remaining - 1)).map (fun k => DB_RETRY_DELAY_MS * k) } := by
  intro remaining
  induction remaining with
  | zero =>
    intro attempt h h1
    have ha : attempt = N + 1 := by omega
    subst ha
    simp [withRetryGo]
  | succ m ih =>
    intro attempt h h1
    have h2 : attempt + 1 + m = N + 1 := by omega
    have hrec := ih (attempt + 1) h2 (by omega)
    rw [show attempt + 1 - 1 = attempt from by omega] at hrec
    simp only [withRetryGo, hfail attempt]
    rw [hrec]
    simp only []
    cases m with
    | zero =>
      have : ¬ attempt < N := by omega
      simp [this]
    | succ m2 =>
      have : attempt < N := by omega
      simp [this, List.range'_succ]

theorem withRetryGo_success {α : Type} (op : Nat → Except String α) (context : String) (N : Nat)
    (j : Nat) (v : α) (hj : op j = Except.ok v)
    (hbefore : ∀ k, 1 ≤ k → k < j → ∃ m, op k = Except.error m) :
    ∀ remaining attempt last, attempt + remaining = N + 1 → 1 ≤ attempt → attempt ≤ j → j ≤ N →
      withRetryGo op context N attempt remaining last =
        { result := Except.ok v
          attemptsMade := j
          sleeps := (List.range' attempt (j - attempt)).map (fun k => DB_RETRY_DELAY_MS * k) } := by
  intro remaining
  induction remaining with
  | zero =>
    intro attempt last h h1 haj hjN
    omega
  | succ m ih =>
    intro attempt last h h1 haj hjN
    by_cases heq : attempt = j
    · subst heq
      simp [withRetryGo, hj]
    · have hlt : attempt < j := lt_of_le_of_ne haj heq
      obtain ⟨msg, hmsg⟩ := hbefore attempt h1 hlt
      have h2 : attempt + 1 + m = N + 1 := by omega
      have hrec := ih (attempt + 1) (some msg) h2 (by omega) (by omega) hjN
      simp only [withRetryGo, hmsg]
      rw [hrec]
      simp only []
      have haN : attempt < N := by omega
      have hsub : j - attempt = (j - (attempt + 1)) + 1 := by omega
      simp [haN, hsub, List.range'_succ]

/-- C6: `withRetry` attempts the operation up to `maxAttempts` times (the
default `DB_RETRY_ATTEMPTS` is 3): an operation that always fails is attempted
exactly `maxAttempts` times, with a sleep of `DB_RETRY_DELAY_MS * attempt`
(default base 1000ms, linear in the attempt number) after each failed attempt
but the last, and then a single composite error naming the context, the
attempt count and the last underlying error's message is raised; an attempt
that succeeds returns its result immediately with no further attempts. -/
theorem withRetry_spec {α : Type} (context : String) (N : Nat) (op : Nat → Except String α) :
    DB_RETRY_ATTEMPTS = 3 ∧ DB_RETRY_DELAY_MS = 1000 ∧
    (∀ e : Nat → String, (∀ k, op k = Except.error (e k)) → 1 ≤ N →
      (withRetry op context N).attemptsMade = N ∧
      (withRetry op context N).result =
        Except.error (compositeError context N (some (e N))) ∧
      (withRetry op context N).sleeps =
        (List.range' 1 (N - 1)).map (fun k => DB_RETRY_DELAY_MS * k)) ∧
    (∀ j v, op j = Except.ok v → (∀ k, 1 ≤ k → k < j → ∃ m, op k = Except.error m) →
      1 ≤ j → j ≤ N →
      (withRetry op context N).result = Except.ok v ∧
      (withRetry op context N).attemptsMade = j ∧
      (withRetry op context N).sleeps =
        (List.range' 1 (j - 1)).map (fun k => DB_RETRY_DELAY_MS * k)) := by
  refine ⟨rfl, rfl, ?_, ?_⟩
  · intro e hfail hN
    obtain ⟨M, rfl⟩ : ∃ M, N = M + 1 := ⟨N - 1, by omega⟩
    have h := withRetryGo_fail op context (M + 1) e hfail M 2 (by omega) (by omega)
    rw [show (2 : Nat) - 1 = 1 from rfl] at h
    unfold withRetry
    simp only [withRetryGo, hfail 1]
    rw [h]
    refine ⟨rfl, rfl, ?_⟩
    cases M with
    | zero => simp
    | succ m =>
      have h12 : 1 < m + 1 + 1 := by omega
      simp [h12, List.range'_succ]
  · intro j v hj hbefore h1 hjN
    have h := withRetryGo_success op context N j v hj hbefore N 1 none (by omega) (by omega) h1 hjN
    unfold withRetry
    rw [h]
    exact ⟨rfl, rfl, rfl⟩

/-- C6 witness: an always-failing operation with the default 3 attempts is
attempted exactly 3 times, sleeps 1000ms then 2000ms, and raises the composite
error; an operation succeeding on attempt 2 stops after 2 attempts. -/
theorem withRetry_spec_witness :
    (withRetry (fun _ => (Except.error "boom" : Except String Nat))
      "Database query" 3).attemptsMade = 3 ∧
    (withRetry (fun _ => (Except.error "boom" : Except String Nat))
      "Database query" 3).result =
      Except.error "Database query failed after 3 attempts: boom" ∧
    (withRetry (fun _ => (Except.error "boom" : Except String Nat))
      "Database query" 3).sleeps = [1000, 2000] ∧
    (withRetry (fun k => if k = 2 then Except.ok 42 else (Except.error "boom" : Except String Nat))
      "q" 3).result = Except.ok 42 ∧
    (withRetry (fun k => if k = 2 then Except.ok 42 else (Except.error "boom" : Except String Nat))
      "q" 3).attemptsMade = 2 := by
  have h1 := (withRetry_spec "Database query" 3
      (fun _ => (Except.error "boom" : Except String Nat))).2.2.1
      (fun _ => "boom") (fun _ => rfl) (by omega)
  have h2 := (withRetry_spec "q" 3
      (fun k => if k = 2 then Except.ok 42 else (Except.error "boom" : Except String Nat))).2.2.2
      2 42 (by simp)
      (fun k hk1 hk2 => ⟨"boom", by
        have hk : k = 1 := by omega
        subst hk
        rfl⟩)
      (by omega) (by omega)
  refine ⟨h1.1, ?_, ?_, h2.1, h2.2.1⟩
  · rw [h1.2.1]
    rfl
  · rw [h1.2.2]
    rfl

end RenderServer

namespace RenderServer

theorem onProgress_pos (st : ProgressState) (now : Nat) (p : ℚ)
    (h : PROGRESS_UPDATE_INTERVAL_MS < now - st.lastProgressUpdate ∧
      roundProgress p ≠ st.lastProgressValue) :
    onProgress st now p =
      ({ lastProgressUpdate := now, lastProgressValue := roundProgress p },
        some (roundProgress p)) := by
  unfold onProgress
  rw [if_pos h]

theorem onProgress_neg (st : ProgressState) (now : Nat) (p : ℚ)
    (h : ¬ (PROGRESS_UPDATE_INTERVAL_MS < now - st.lastProgressUpdate ∧
      roundProgress p ≠ st.lastProgressValue)) :
    onProgress st now p = (st, none) := by
  unfold onProgress
  rw [if_neg h]

theorem runProgress_chain (events : List (Nat × ℚ)) :
    ∀ st : ProgressState,
      List.Chain (fun a b => PROGRESS_UPDATE_INTERVAL_MS < b.1 - a.1 ∧ b.2 ≠ a.2)
        (st.lastProgressUpdate, st.lastProgressValue) (runProgress st events).2 := by
  induction events with
  | nil =>
    intro st
    exact List.Chain.nil
  | cons ev rest ih =>
    intro st
    obtain ⟨now, p⟩ := ev
    by_cases h : PROGRESS_UPDATE_INTERVAL_MS < now - st.lastProgressUpdate ∧
        roundProgress p ≠ st.lastProgressValue
    · have heq : runProgress st ((now, p) :: rest) =
          ((runProgress { lastProgressUpdate := now, lastProgressValue := roundProgress p } rest).1,
            (now, roundProgress p) ::
              (runProgress { lastProgressUpdate := now, lastProgressValue := roundProgress p } rest).2) := by
        simp [runProgress, onProgress_pos st now p h]
      rw [heq]
      refine List.Chain.cons ⟨h.1, h.2⟩ ?_
      simpa using ih { lastProgressUpdate := now, lastProgressValue := roundProgress p }
    · have heq : runProgress st ((now, p) :: rest) = runProgress st rest := by
        simp [runProgress, onProgress_neg st now p h]
      rw [heq]
      exact ih st

/-- C7: a durable progress write is issued only when both (a) more than
`PROGRESS_UPDATE_INTERVAL_MS` (5000ms) — so in particular at least that much —
has elapsed since the previously issued write (trackers start at 0) and
(b) the progress rounded to 2 decimal places differs from the previously
written value; and the writes are fire-and-forget: every write failure is
caught by the `.catch` handler, so the render's settled result and the write
sequence are identical for every pattern of write failures and the render
always completes. -/
theorem renderJob_progress_throttle (job : Job) (events : List (Nat × ℚ)) :
    List.Chain (fun a b => PROGRESS_UPDATE_INTERVAL_MS < b.1 - a.1 ∧ b.2 ≠ a.2)
      ((0 : Nat), (0 : ℚ))
      (runProgress { lastProgressUpdate := 0, lastProgressValue := 0 } events).2 ∧
    (∀ writeFails : Nat → Bool,
      renderJob job events writeFails =
        (Except.ok (outputPathFor job),
          (runProgress { lastProgressUpdate := 0, lastProgressValue := 0 } events).2)) := by
  constructor
  · exact runProgress_chain events { lastProgressUpdate := 0, lastProgressValue := 0 }
  · intro wf
    rfl

end RenderServer

namespace RenderServer

theorem loopClaims_shutdown (a : Nat) (db : DB) (times : List Nat) :
    loopClaims { shuttingDown := true, activeRenders := a, db := db } times = [] := by
  induction times with
  | nil => rfl
  | cons t rest ih =>
    have hstep : loopIter { shuttingDown := true, activeRenders := a, db := db } t =
        ({ shuttingDown := true, activeRenders := a, db := db }, none) := by
      unfold loopIter
      rw [if_pos rfl]
    simp only [loopClaims, hstep]
    exact ih

/-- C8: once the shutdown flag is set the worker loop makes no further claim
attempts (the flag is the first check of every pass, and the loop never clears
it); the coordinator exits with code 0 exactly when some poll strictly before
the 30s deadline observes the active-render counter at zero, and then only
after the pool close ran; if every poll before the deadline still sees active
renders, the force timer terminates the process at 30000ms with exit code 1. -/
theorem shutdown_spec :
    (∀ (a : Nat) (db : DB) (times : List Nat),
      loopClaims { shuttingDown := true, activeRenders := a, db := db } times = []) ∧
    (∀ active : Nat → Nat,
      ((shutdownRun active).exitCode = 0 ↔
        ∃ k, k < GRACEFUL_DEADLINE_MS / 1000 ∧ active (1000 * k) = 0) ∧
      ((shutdownRun active).exitCode = 0 → (shutdownRun active).poolClosed = true) ∧
      ((∀ k, k < GRACEFUL_DEADLINE_MS / 1000 → 0 < active (1000 * k)) →
        (shutdownRun active).exitCode = 1 ∧
        (shutdownRun active).exitTime = GRACEFUL_DEADLINE_MS)) := by
  refine ⟨loopClaims_shutdown, ?_⟩
  intro active
  cases hf : (List.range (GRACEFUL_DEADLINE_MS / 1000)).find? (fun k => active (1000 * k) = 0) with
  | some k =>
    have hrun : shutdownRun active =
        { exitCode := 0, poolClosed := true, exitTime := 1000 * k } := by
      unfold shutdownRun
      rw [hf]
    have hk0 : active (1000 * k) = 0 := by simpa using List.find?_some hf
    have hkmem : k ∈ List.range (GRACEFUL_DEADLINE_MS / 1000) := List.mem_of_find?_eq_some hf
    have hklt : k < GRACEFUL_DEADLINE_MS / 1000 := List.mem_range.mp hkmem
    rw [hrun]
    refine ⟨⟨fun _ => ⟨k, hklt, hk0⟩, fun _ => rfl⟩, fun _ => rfl, fun hall => ?_⟩
    exact absurd hk0 (by have := hall k hklt; omega)
  | none =>
    have hrun : shutdownRun active =
        { exitCode := 1, poolClosed := false, exitTime := GRACEFUL_DEADLINE_MS } := by
      unfold shutdownRun
      rw [hf]
    rw [hrun]
    refine ⟨⟨fun h => (nomatch h), fun hex => ?_⟩, fun h => (nomatch h), fun _ => ⟨rfl, rfl⟩⟩
    obtain ⟨k, hklt, hk0⟩ := hex
    have := List.find?_eq_none.mp hf k (List.mem_range.mpr hklt)
    simp [hk0] at this

/-- C8 witness: with the flag set no pass over three wall-clock instants makes
a claim; a counter that drains by t = 3000ms yields a clean exit 0 with the
pool closed; a counter that never drains forces exit 1 at the 30000ms deadline. -/
theorem shutdown_spec_witness :
    loopClaims { shuttingDown := true, activeRenders := 2, db := sampleDB } [0, 1, 2] = [] ∧
    (shutdownRun (fun t => if 3000 ≤ t then 0 else 2)).exitCode = 0 ∧
    ((shutdownRun (fun _ => 5)).exitCode = 1 ∧
      (shutdownRun (fun _ => 5)).exitTime = GRACEFUL_DEADLINE_MS) :=
  ⟨shutdown_spec.1 2 sampleDB [0, 1, 2],
    (shutdown_spec.2 (fun t => if 3000 ≤ t then 0 else 2)).1.mpr ⟨3, by decide, by decide⟩,
    (shutdown_spec.2 (fun _ => 5)).2.2 (fun k hk => by decide)⟩

end RenderServer

namespace RenderServer.MemQueue

theorem getJob_deleteJob (m : Registry) (k : String) : getJob (deleteJob m k) k = none := by
  unfold getJob deleteJob
  rw [List.find?_eq_none.mpr]
  · rfl
  · intro kv hkv
    have := List.mem_filter.mp hkv
    simpa using this.2

theorem getJob_setJob_self (m : Registry) (k : String) (v : JobState) :
    getJob (setJob m k v) k = some v := by
  unfold getJob setJob
  by_cases hany : m.any (fun kv => kv.1 = k)
  · rw [if_pos hany, List.find?_map]
    have hpf : ((fun kv : String × JobState => decide (kv.1 = k)) ∘
        (fun kv : String × JobState => if kv.1 = k then (k, v) else kv)) =
        (fun kv : String × JobState => decide (kv.1 = k)) := by
      funext kv
      by_cases h : kv.1 = k <;> simp [h]
    rw [hpf]
    obtain ⟨kv0, hmem, hkv0⟩ := List.any_eq_true.mp hany
    have hsome : (m.find? (fun kv => decide (kv.1 = k))).isSome :=
      List.find?_isSome.mpr ⟨kv0, hmem, hkv0⟩
    obtain ⟨kv1, hfind⟩ := Option.isSome_iff_exists.mp hsome
    have hk1 : kv1.1 = k := by simpa using List.find?_some hfind
    rw [hfind]
    simp [hk1]
  · rw [if_neg hany]
    have hnone : m.find? (fun kv => decide (kv.1 = k)) = none := by
      apply List.find?_eq_none.mpr
      intro kv hkv
      simp only [decide_eq_true_eq]
      intro hk
      exact hany (List.any_eq_true.mpr ⟨kv, hkv, by simpa using hk⟩)
    rw [List.find?_append, hnone]
    simp

theorem getJob_setJob_other (m : Registry) (k k2 : String) (v : JobState) (hne : k2 ≠ k) :
    getJob (setJob m k v) k2 = getJob m k2 := by
  unfold getJob setJob
  by_cases hany : m.any (fun kv => kv.1 = k)
  · rw [if_pos hany, List.find?_map]
    have hpf : ((fun kv : String × JobState => decide (kv.1 = k2)) ∘
        (fun kv : String × JobState => if kv.1 = k then (k, v) else kv)) =
        (fun kv : String × JobState => decide (kv.1 = k2)) := by
      funext kv
      by_cases h : kv.1 = k <;> simp [h]
    rw [hpf]
    cases hfind : m.find? (fun kv => decide (kv.1 = k2)) with
    | none => rfl
    | some kv1 =>
      have hk1 : kv1.1 = k2 := by simpa using List.find?_some hfind
      have : kv1.1 ≠ k := by rw [hk1]; exact hne
      simp [this]
  · rw [if_neg hany, List.find?_append]
    have h2 : ([(k, v)].find? (fun kv => decide (kv.1 = k2))) = none := by
      simp [Ne.symm hne]
    rw [h2]
    cases m.find? (fun kv => decide (kv.1 = k2)) <;> rfl

/-- C9: the cancel endpoint 404s on an unknown job and 400s (no state change)
on a job that is already `completed` or `failed`; cancelling a `queued` job
deletes it from the registry, so a subsequent lookup of that id finds no job;
cancelling an `in-progress` job triggers its render cancel signal, after which
the in-flight render settles as cancelled and the catch handler records the
job as `failed`, whatever the render would otherwise have produced. -/
theorem cancel_endpoint_spec (s : QueueState) (jobId : String) (port : Nat) :
    (getJob s.jobs jobId = none →
      cancelEndpoint s jobId = (s, HttpResponse.notFound "Job not found")) ∧
    (∀ url d, getJob s.jobs jobId = some (JobState.completed url d) →
      cancelEndpoint s jobId = (s, HttpResponse.badRequest "Job is not cancellable")) ∧
    (∀ e d, getJob s.jobs jobId = some (JobState.failed e d) →
      cancelEndpoint s jobId = (s, HttpResponse.badRequest "Job is not cancellable")) ∧
    (∀ d, getJob s.jobs jobId = some (JobState.queued d) →
      (cancelEndpoint s jobId).2 = HttpResponse.ok "Job cancelled" ∧
      getJob (cancelEndpoint s jobId).1.jobs jobId = none) ∧
    (∀ p d, getJob s.jobs jobId = some (JobState.inProgress p d) →
      (cancelEndpoint s jobId).2 = HttpResponse.ok "Job cancelled" ∧
      jobId ∈ (cancelEndpoint s jobId).1.cancelledSignals ∧
      (∀ outcome : RenderOutcome,
        getJob (processRenderFinish (cancelEndpoint s jobId).1 jobId d port outcome).jobs
            jobId =
          some (JobState.failed "renderMedia cancelled" d))) := by
  refine ⟨?_, ?_, ?_, ?_, ?_⟩
  · intro h
    unfold cancelEndpoint
    rw [h]
  · intro url d h
    unfold cancelEndpoint
    rw [h]
  · intro e d h
    unfold cancelEndpoint
    rw [h]
  · intro d h
    have hce : cancelEndpoint s jobId =
        ({ s with jobs := deleteJob s.jobs jobId }, HttpResponse.ok "Job cancelled") := by
      unfold cancelEndpoint
      rw [h]
    rw [hce]
    exact ⟨rfl, getJob_deleteJob _ _⟩
  · intro p d h
    have hce : cancelEndpoint s jobId =
        ({ s with cancelledSignals := jobId :: s.cancelledSignals },
          HttpResponse.ok "Job cancelled") := by
      unfold cancelEndpoint
      rw [h]
    rw [hce]
    refine ⟨rfl, List.mem_cons_self _ _, ?_⟩
    intro outcome
    have hmedia : renderMediaOutcome
        { s with cancelledSignals := jobId :: s.cancelledSignals } jobId outcome =
        RenderOutcome.failure "renderMedia cancelled" := by
      unfold renderMediaOutcome
      rw [if_pos (List.mem_cons_self _ _)]
    unfold processRenderFinish
    rw [hmedia]
    exact getJob_setJob_self _ _ _

/-- C9 witness: on a two-job registry (one queued, one in-progress), cancelling
the queued job removes it, and cancelling the in-progress one signals its
render and the settling render marks it failed; a completed job is rejected
as not cancellable. -/
theorem cancel_endpoint_spec_witness :
    (cancelEndpoint
        { jobs := [("a", JobState.queued
            { style := "basic", captionPadding := 540, videoUrl := "v",
              durationInFrames := 30, fps := 30 })],
          cancelledSignals := [] } "a").2 = HttpResponse.ok "Job cancelled" ∧
    getJob (cancelEndpoint
        { jobs := [("a", JobState.queued
            { style := "basic", captionPadding := 540, videoUrl := "v",
              durationInFrames := 30, fps := 30 })],
          cancelledSignals := [] } "a").1.jobs "a" = none ∧
    (∀ outcome : RenderOutcome,
      getJob (processRenderFinish
          (cancelEndpoint
            { jobs := [("b", JobState.inProgress 0
                { style := "basic", captionPadding := 540, videoUrl := "v",
                  durationInFrames := 30, fps := 30 })],
              cancelledSignals := [] } "b").1 "b"
          { style := "basic", captionPadding := 540, videoUrl := "v",
            durationInFrames := 30, fps := 30 } 3002 outcome).jobs "b" =
        some (JobState.failed "renderMedia cancelled"
          { style := "basic", captionPadding := 540, videoUrl := "v",
            durationInFrames := 30, fps := 30 })) ∧
    (cancelEndpoint
        { jobs := [("c", JobState.completed "u"
            { style := "basic", captionPadding := 540, videoUrl := "v",
              durationInFrames := 30, fps := 30 })],
          cancelledSignals := [] } "c").2 = HttpResponse.badRequest "Job is not cancellable" := by
  have hq := (cancel_endpoint_spec
      { jobs := [("a", JobState.queued
          { style := "basic", captionPadding := 540, videoUrl := "v",
            durationInFrames := 30, fps := 30 })],
        cancelledSignals := [] } "a" 3002).2.2.2.1
      { style := "basic", captionPadding := 540, videoUrl := "v",
        durationInFrames := 30, fps := 30 } (by decide)
  have hip := (cancel_endpoint_spec
      { jobs := [("b", JobState.inProgress 0
          { style := "basic", captionPadding := 540, videoUrl := "v",
            durationInFrames := 30, fps := 30 })],
        cancelledSignals := [] } "b" 3002).2.2.2.2 0
      { style := "basic", captionPadding := 540, videoUrl := "v",
        durationInFrames := 30, fps := 30 } (by decide)
  have hcp := (cancel_endpoint_spec
      { jobs := [("c", JobState.completed "u"
          { style := "basic", captionPadding := 540, videoUrl := "v",
            durationInFrames := 30, fps := 30 })],
        cancelledSignals := [] } "c" 3002).2.1 "u"
      { style := "basic", captionPadding := 540, videoUrl := "v",
        durationInFrames := 30, fps := 30 } (by decide)
  exact ⟨hq.1, hq.2, hip.2.2, by rw [hcp]⟩

end RenderServer.MemQueue

namespace RenderServer.MemQueue

theorem runChain_rejected (port : Nat) (s : QueueState)
    (order : List (String × RenderOutcome)) :
    runChain port s ChainState.rejected order = (s, ChainState.rejected) := by
  induction order with
  | nil => rfl
  | cons a rest ih => simpa [runChain] using ih

theorem runChain_cons_fulfilled (port : Nat) (s : QueueState) (jobId : String)
    (outcome : RenderOutcome) (rest : List (String × RenderOutcome)) :
    runChain port s ChainState.fulfilled ((jobId, outcome) :: rest) =
      runChain port (processRender s jobId port outcome).1
        (if (processRender s jobId port outcome).2 then ChainState.fulfilled
          else ChainState.rejected)
        rest := by
  cases hpr : processRender s jobId port outcome with
  | mk s1 b => cases b <;> simp [runChain, hpr]

theorem runChain_append (port : Nat) (s : QueueState) (c : ChainState)
    (l1 l2 : List (String × RenderOutcome)) :
    runChain port s c (l1 ++ l2) =
      runChain port (runChain port s c l1).1 (runChain port s c l1).2 l2 := by
  induction l1 generalizing s c with
  | nil => cases c <;> rfl
  | cons a rest ih =>
    obtain ⟨jobId, outcome⟩ := a
    cases c with
    | rejected => simp [runChain_rejected]
    | fulfilled =>
      simp only [List.cons_append]
      rw [runChain_cons_fulfilled, runChain_cons_fulfilled, ih]

/-- C10: the in-memory variant runs jobs through a single promise chain in
creation order; when a queued job was cancelled (deleted from the registry)
before its turn, its `processRender` rejects with the not-found error, the
chain becomes a rejected promise, and — since `.then` with only an
onFulfilled handler propagates rejection — no job after that point is ever
processed: the registry stays exactly as it was, so every such job remains
`queued` forever. -/
theorem chain_poisoned (port : Nat) (s : QueueState)
    (pre : List (String × RenderOutcome)) (c : String) (co : RenderOutcome)
    (post : List (String × RenderOutcome))
    (hful : (runChain port s ChainState.fulfilled pre).2 = ChainState.fulfilled)
    (hc : getJob (runChain port s ChainState.fulfilled pre).1.jobs c = none) :
    (runChain port s ChainState.fulfilled (pre ++ (c, co) :: post)).2 =
      ChainState.rejected ∧
    (runChain port s ChainState.fulfilled (pre ++ (c, co) :: post)).1 =
      (runChain port s ChainState.fulfilled pre).1 ∧
    (∀ jobId d,
      getJob (runChain port s ChainState.fulfilled pre).1.jobs jobId =
        some (JobState.queued d) →
      getJob (runChain port s ChainState.fulfilled (pre ++ (c, co) :: post)).1.jobs jobId =
        some (JobState.queued d)) := by
  have h1 := runChain_append port s ChainState.fulfilled pre ((c, co) :: post)
  rw [hful] at h1
  have hpr : processRender (runChain port s ChainState.fulfilled pre).1 c port co =
      ((runChain port s ChainState.fulfilled pre).1, false) := by
    unfold processRender
    rw [hc]
  have h2 : runChain port (runChain port s ChainState.fulfilled pre).1
      ChainState.fulfilled ((c, co) :: post) =
      ((runChain port s ChainState.fulfilled pre).1, ChainState.rejected) := by
    rw [runChain_cons_fulfilled, hpr]
    exact runChain_rejected port _ post
  rw [h1, h2]
  exact ⟨rfl, rfl, fun jobId d h => h⟩

/-- C10 witness: with job "a" already deleted while queued and jobs "b", "c"
still queued, running the chain a → b → c rejects at "a" and leaves "b" and
"c" queued, never processed. -/
theorem chain_poisoned_witness :
    (runChain 3002
        { jobs := [("b", JobState.queued
            { style := "basic", captionPadding := 540, videoUrl := "v",
              durationInFrames := 30, fps := 30 }),
          ("c", JobState.queued
            { style := "basic", captionPadding := 540, videoUrl := "v",
              durationInFrames := 30, fps := 30 })],
          cancelledSignals := [] }
        ChainState.fulfilled
        [("a", RenderOutcome.success), ("b", RenderOutcome.success),
          ("c", RenderOutcome.success)]).2 = ChainState.rejected ∧
    getJob (runChain 3002
        { jobs := [("b", JobState.queued
            { style := "basic", captionPadding := 540, videoUrl := "v",
              durationInFrames := 30, fps := 30 }),
          ("c", JobState.queued
            { style := "basic", captionPadding := 540, videoUrl := "v",
              durationInFrames := 30, fps := 30 })],
          cancelledSignals := [] }
        ChainState.fulfilled
        [("a", RenderOutcome.success), ("b", RenderOutcome.success),
          ("c", RenderOutcome.success)]).1.jobs "b" =
      some (JobState.queued
        { style := "basic", captionPadding := 540, videoUrl := "v",
          durationInFrames := 30, fps := 30 }) := by
  have h := chain_poisoned 3002
      { jobs := [("b", JobState.queued
          { style := "basic", captionPadding := 540, videoUrl := "v",
            durationInFrames := 30, fps := 30 }),
        ("c", JobState.queued
          { style := "basic", captionPadding := 540, videoUrl := "v",
            durationInFrames := 30, fps := 30 })],
        cancelledSignals := [] }
      [] "a" RenderOutcome.success
      [("b", RenderOutcome.success), ("c", RenderOutcome.success)]
      rfl (by decide)
  exact ⟨h.1, h.2.2 "b"
    { style := "basic", captionPadding := 540, videoUrl := "v",
      durationInFrames := 30, fps := 30 } (by decide)⟩

end RenderServer.MemQueue

namespace RenderServer.Claim

theorem heldJobs_append (l1 l2 : List CallerState) :
    heldJobs (l1 ++ l2) = heldJobs l1 ++ heldJobs l2 :=
  List.filterMap_append ..

theorem claimedJobs_append (l1 l2 : List CallerState) :
    claimedJobs (l1 ++ l2) = claimedJobs l1 ++ claimedJobs l2 :=
  List.filterMap_append ..

theorem heldJobs_cons_idle (l : List CallerState) :
    heldJobs (CallerState.idle :: l) = heldJobs l := rfl

theorem heldJobs_cons_doneNone (l : List CallerState) :
    heldJobs (CallerState.doneNone :: l) = heldJobs l := rfl

theorem heldJobs_cons_doneSome (j : Nat) (l : List CallerState) :
    heldJobs (CallerState.doneSome j :: l) = heldJobs l := rfl

theorem heldJobs_cons_holding (j : Nat) (l : List CallerState) :
    heldJobs (CallerState.holding j :: l) = j :: heldJobs l := rfl

theorem claimedJobs_cons_idle (l : List CallerState) :
    claimedJobs (CallerState.idle :: l) = claimedJobs l := rfl

theorem claimedJobs_cons_doneNone (l : List CallerState) :
    claimedJobs (CallerState.doneNone :: l) = claimedJobs l := rfl

theorem claimedJobs_cons_doneSome (j : Nat) (l : List CallerState) :
    claimedJobs (CallerState.doneSome j :: l) = j :: claimedJobs l := rfl

theorem claimedJobs_cons_holding (j : Nat) (l : List CallerState) :
    claimedJobs (CallerState.holding j :: l) = claimedJobs l := rfl

theorem callers_decomp (cs : List CallerState) (i : Nat) (a : CallerState)
    (h : cs[i]? = some a) (v : CallerState) :
    cs = cs.take i ++ a :: cs.drop (i + 1) ∧
    cs.set i v = cs.take i ++ v :: cs.drop (i + 1) := by
  obtain ⟨hlt, hget⟩ := List.getElem?_eq_some.mp h
  constructor
  · conv_lhs => rw [← List.take_append_drop i cs]
    rw [List.drop_eq_getElem_cons hlt, hget]
  · exact List.set_eq_take_cons_drop v hlt

theorem step_eq_of_none (s : SysState) (i : Nat) (h : s.callers[i]? = none) :
    step s i = s := by
  unfold step
  rw [h]

theorem step_eq_idle_nil (s : SysState) (i : Nat)
    (h1 : s.callers[i]? = some CallerState.idle) (h2 : s.freeQueued = []) :
    step s i = { s with callers := s.callers.set i CallerState.doneNone } := by
  unfold step
  rw [h1, h2]

theorem step_eq_idle_cons (s : SysState) (i : Nat) (j : Nat) (rest : List Nat)
    (h1 : s.callers[i]? = some CallerState.idle) (h2 : s.freeQueued = j :: rest) :
    step s i = { freeQueued := rest, callers := s.callers.set i (CallerState.holding j) } := by
  unfold step
  rw [h1, h2]

theorem step_eq_holding (s : SysState) (i : Nat) (j : Nat)
    (h1 : s.callers[i]? = some (CallerState.holding j)) :
    step s i = { s with callers := s.callers.set i (CallerState.doneSome j) } := by
  unfold step
  rw [h1]

theorem step_eq_doneNone (s : SysState) (i : Nat)
    (h1 : s.callers[i]? = some CallerState.doneNone) :
    step s i = s := by
  unfold step
  rw [h1]

theorem step_eq_doneSome (s : SysState) (i : Nat) (j : Nat)
    (h1 : s.callers[i]? = some (CallerState.doneSome j)) :
    step s i = s := by
  unfold step
  rw [h1]

theorem perm_case_idle_nil (F : List Nat) (T D : List CallerState) :
    List.Perm (mset ⟨F, T ++ CallerState.doneNone :: D⟩)
      (mset ⟨F, T ++ CallerState.idle :: D⟩) := by
  refine List.perm_iff_count.mpr (fun a => ?_)
  simp [mset, heldJobs_append, claimedJobs_append, heldJobs_cons_doneNone,
    heldJobs_cons_idle, claimedJobs_cons_doneNone, claimedJobs_cons_idle,
    List.count_append]

theorem perm_case_idle_cons (j : Nat) (rest : List Nat) (T D : List CallerState) :
    List.Perm (mset ⟨rest, T ++ CallerState.holding j :: D⟩)
      (mset ⟨j :: rest, T ++ CallerState.idle :: D⟩) := by
  refine List.perm_iff_count.mpr (fun a => ?_)
  simp only [mset, heldJobs_append, claimedJobs_append, heldJobs_cons_holding,
    heldJobs_cons_idle, claimedJobs_cons_holding, claimedJobs_cons_idle,
    List.count_append, List.count_cons]
  ring

theorem perm_case_holding (F : List Nat) (j : Nat) (T D : List CallerState) :
    List.Perm (mset ⟨F, T ++ CallerState.doneSome j :: D⟩)
      (mset ⟨F, T ++ CallerState.holding j :: D⟩) := by
  refine List.perm_iff_count.mpr (fun a => ?_)
  simp only [mset, heldJobs_append, claimedJobs_append, heldJobs_cons_holding,
    heldJobs_cons_doneSome, claimedJobs_cons_holding, claimedJobs_cons_doneSome,
    List.count_append, List.count_cons]
  ring

theorem mset_step_perm (s : SysState) (i : Nat) :
    List.Perm (mset (step s i)) (mset s) := by
  cases hcs : s.callers[i]? with
  | none =>
    rw [step_eq_of_none s i hcs]
  | some c =>
    cases c with
    | idle =>
      cases hf : s.freeQueued with
      | nil =>
        rw [step_eq_idle_nil s i hcs hf]
        obtain ⟨hdec, hset⟩ := callers_decomp s.callers i CallerState.idle hcs CallerState.doneNone
        have key : List.Perm (mset ⟨s.freeQueued, s.callers.set i CallerState.doneNone⟩)
            (mset ⟨s.freeQueued, s.callers⟩) := by
          rw [hset]
          conv_rhs => rw [hdec]
          exact perm_case_idle_nil s.freeQueued _ _
        exact key
      | cons j rest =>
        rw [step_eq_idle_cons s i j rest hcs hf]
        obtain ⟨hdec, hset⟩ := callers_decomp s.callers i CallerState.idle hcs (CallerState.holding j)
        have key : List.Perm (mset ⟨rest, s.callers.set i (CallerState.holding j)⟩)
            (mset ⟨j :: rest, s.callers⟩) := by
          rw [hset]
          conv_rhs => rw [hdec]
          exact perm_case_idle_cons j rest _ _
        have h2 : mset s = mset ⟨j :: rest, s.callers⟩ := by rw [← hf]
        rw [h2]
        exact key
    | holding j =>
      rw [step_eq_holding s i j hcs]
      obtain ⟨hdec, hset⟩ := callers_decomp s.callers i (CallerState.holding j) hcs (CallerState.doneSome j)
      have key : List.Perm (mset ⟨s.freeQueued, s.callers.set i (CallerState.doneSome j)⟩)
          (mset ⟨s.freeQueued, s.callers⟩) := by
        rw [hset]
        conv_rhs => rw [hdec]
        exact perm_case_holding s.freeQueued j _ _
      exact key
    | doneNone =>
      rw [step_eq_doneNone s i hcs]
    | doneSome j =>
      rw [step_eq_doneSome s i j hcs]

theorem mset_run_perm (sched : List Nat) :
    ∀ s : SysState, List.Perm (mset (run s sched)) (mset s) := by
  induction sched with
  | nil => intro s; exact List.Perm.refl _
  | cons i rest ih => intro s; exact (ih (step s i)).trans (mset_step_perm s i)

end RenderServer.Claim

namespace RenderServer.Claim

theorem mem_swap_mid {c v w : CallerState} {T D : List CallerState}
    (h : c ∈ T ++ v :: D) (hne : c ≠ v) : c ∈ T ++ w :: D := by
  rcases List.mem_append.mp h with h1 | h1
  · exact List.mem_append.mpr (Or.inl h1)
  · rcases List.mem_cons.mp h1 with h2 | h2
    · exact absurd h2 hne
    · exact List.mem_append.mpr (Or.inr (List.mem_cons_of_mem _ h2))

theorem step_preserves_NIE (s : SysState) (i : Nat) (h : NoneImpliesEmpty s) :
    NoneImpliesEmpty (step s i) := by
  cases hcs : s.callers[i]? with
  | none =>
    rw [step_eq_of_none s i hcs]
    exact h
  | some c =>
    cases c with
    | idle =>
      cases hf : s.freeQueued with
      | nil =>
        rw [step_eq_idle_nil s i hcs hf]
        intro _
        exact hf
      | cons j rest =>
        rw [step_eq_idle_cons s i j rest hcs hf]
        obtain ⟨hdec, hset⟩ := callers_decomp s.callers i CallerState.idle hcs (CallerState.holding j)
        intro hex
        obtain ⟨c, hc, rfl⟩ := hex
        rw [hset] at hc
        have hmem : CallerState.doneNone ∈ s.callers := by
          rw [hdec]
          exact mem_swap_mid hc (by intro hcc; cases hcc)
        have : s.freeQueued = [] := h ⟨CallerState.doneNone, hmem, rfl⟩
        rw [hf] at this
        cases this
    | holding j =>
      rw [step_eq_holding s i j hcs]
      obtain ⟨hdec, hset⟩ := callers_decomp s.callers i (CallerState.holding j) hcs (CallerState.doneSome j)
      intro hex
      obtain ⟨c, hc, rfl⟩ := hex
      rw [hset] at hc
      have hmem : CallerState.doneNone ∈ s.callers := by
        rw [hdec]
        exact mem_swap_mid hc (by intro hcc; cases hcc)
      exact h ⟨CallerState.doneNone, hmem, rfl⟩
    | doneNone =>
      rw [step_eq_doneNone s i hcs]
      exact h
    | doneSome j =>
      rw [step_eq_doneSome s i j hcs]
      exact h

theorem run_preserves_NIE (sched : List Nat) :
    ∀ s : SysState, NoneImpliesEmpty s → NoneImpliesEmpty (run s sched) := by
  induction sched with
  | nil => intro s h; exact h
  | cons i rest ih => intro s h; exact ih (step s i) (step_preserves_NIE s i h)

theorem doneNoneCount_cons_doneNone (t : List CallerState) :
    doneNoneCount (CallerState.doneNone :: t) = doneNoneCount t + 1 := by
  unfold doneNoneCount
  simp [List.countP_cons]

theorem doneNoneCount_cons_doneSome (j : Nat) (t : List CallerState) :
    doneNoneCount (CallerState.doneSome j :: t) = doneNoneCount t := by
  unfold doneNoneCount
  simp [List.countP_cons]

theorem allDone_counts (cs : List CallerState) (h : ∀ c ∈ cs, isDone c = true) :
    heldJobs cs = [] ∧ cs.length = (claimedJobs cs).length + doneNoneCount cs := by
  induction cs with
  | nil => exact ⟨rfl, rfl⟩
  | cons c t ih =>
    have hc := h c (List.mem_cons_self _ _)
    obtain ⟨ih1, ih2⟩ := ih (fun x hx => h x (List.mem_cons_of_mem _ hx))
    cases c with
    | idle => cases hc
    | holding j => cases hc
    | doneNone =>
      refine ⟨ih1, ?_⟩
      rw [claimedJobs_cons_doneNone, doneNoneCount_cons_doneNone]
      simp only [List.length_cons]
      omega
    | doneSome j =>
      refine ⟨ih1, ?_⟩
      rw [claimedJobs_cons_doneSome, doneNoneCount_cons_doneSome]
      simp only [List.length_cons]
      omega

theorem step_callers_length (s : SysState) (i : Nat) :
    (step s i).callers.length = s.callers.length := by
  cases hcs : s.callers[i]? with
  | none => rw [step_eq_of_none s i hcs]
  | some c =>
    cases c with
    | idle =>
      cases hf : s.freeQueued with
      | nil => rw [step_eq_idle_nil s i hcs hf]; exact List.length_set ..
      | cons j rest => rw [step_eq_idle_cons s i j rest hcs hf]; exact List.length_set ..
    | holding j => rw [step_eq_holding s i j hcs]; exact List.length_set ..
    | doneNone => rw [step_eq_doneNone s i hcs]
    | doneSome j => rw [step_eq_doneSome s i j hcs]

theorem run_callers_length (sched : List Nat) :
    ∀ s : SysState, (run s sched).callers.length = s.callers.length := by
  induction sched with
  | nil => intro s; rfl
  | cons i rest ih => intro s; rw [run]; rw [ih (step s i), step_callers_length]

theorem heldJobs_replicate (N : Nat) :
    heldJobs (List.replicate N CallerState.idle) = [] := by
  induction N with
  | zero => rfl
  | succ n ih => rw [List.replicate_succ, heldJobs_cons_idle, ih]

theorem claimedJobs_replicate (N : Nat) :
    claimedJobs (List.replicate N CallerState.idle) = [] := by
  induction N with
  | zero => rfl
  | succ n ih => rw [List.replicate_succ, claimedJobs_cons_idle, ih]

theorem mset_init (jobIds : List Nat) (N : Nat) : mset (init jobIds N) = jobIds := by
  unfold mset init
  rw [heldJobs_replicate, claimedJobs_replicate]
  simp

/-- C1: in the two-phase model of the row-locking claim protocol — phase 1 the
`FOR UPDATE SKIP LOCKED` select (lock the oldest unlocked queued row, or
return none when every queued row is locked or gone), phase 2 the
`UPDATE`/COMMIT — for `N` concurrent callers over `M` queued jobs and any
interleaving in which every caller finishes: each job is claimed by at most
one caller (the claimed ids are pairwise distinct), the total number of
successful claims is exactly `min N M`, and in every reachable state no two
in-flight callers hold (observe) the same queued row. -/
theorem atomic_claim (jobIds : List Nat) (N : Nat) (sched : List Nat)
    (_hM : 0 < jobIds.length) (_hN : 0 < N) (hnodup : jobIds.Nodup)
    (hdone : ∀ c ∈ (run (init jobIds N) sched).callers, isDone c = true) :
    (claimedJobs (run (init jobIds N) sched).callers).Nodup ∧
    (claimedJobs (run (init jobIds N) sched).callers).length = min N jobIds.length ∧
    (∀ sched2 : List Nat, (heldJobs (run (init jobIds N) sched2).callers).Nodup) := by
  have hperm := mset_run_perm sched (init jobIds N)
  rw [mset_init] at hperm
  have hnodup_final : (mset (run (init jobIds N) sched)).Nodup := hperm.symm.nodup hnodup
  have hlen := hperm.length_eq
  obtain ⟨hheld, hcount⟩ := allDone_counts _ hdone
  have hclen : (run (init jobIds N) sched).callers.length = N := by
    rw [run_callers_length]
    exact List.length_replicate ..
  have hclaimed_nodup : (claimedJobs (run (init jobIds N) sched).callers).Nodup := by
    unfold mset at hnodup_final
    exact List.Nodup.of_append_right hnodup_final
  have hmlen : (run (init jobIds N) sched).freeQueued.length +
      (claimedJobs (run (init jobIds N) sched).callers).length = jobIds.length := by
    unfold mset at hlen
    rw [hheld] at hlen
    simpa using hlen
  refine ⟨hclaimed_nodup, ?_, ?_⟩
  · rw [hclen] at hcount
    by_cases hdn : doneNoneCount (run (init jobIds N) sched).callers = 0
    · omega
    · have hnie : NoneImpliesEmpty (run (init jobIds N) sched) := by
        apply run_preserves_NIE
        intro hex
        obtain ⟨c, hc, rfl⟩ := hex
        have := List.eq_of_mem_replicate hc
        cases this
      have hex : ∃ c ∈ (run (init jobIds N) sched).callers, c = CallerState.doneNone := by
        have hpos : 0 < doneNoneCount (run (init jobIds N) sched).callers := by omega
        obtain ⟨c, hc, hpc⟩ := List.countP_pos_iff.mp hpos
        exact ⟨c, hc, by simpa using hpc⟩
      have hfe : (run (init jobIds N) sched).freeQueued = [] := hnie hex
      rw [hfe] at hmlen
      simp at hmlen
      omega
  · intro sched2
    have hperm2 := mset_run_perm sched2 (init jobIds N)
    rw [mset_init] at hperm2
    have hnd2 : (mset (run (init jobIds N) sched2)).Nodup := hperm2.symm.nodup hnodup
    unfold mset at hnd2
    exact List.Nodup.of_append_right (List.Nodup.of_append_left hnd2)

/-- C1 witness: three concurrent callers over two queued jobs, fully
interleaved phase by phase: the two jobs are claimed once each by distinct
callers, the third caller gets none, and the claim total is min 3 2 = 2. -/
theorem atomic_claim_witness :
    (claimedJobs (run (init [10, 20] 3) [0, 1, 2, 0, 1, 2]).callers).Nodup ∧
    (claimedJobs (run (init [10, 20] 3) [0, 1, 2, 0, 1, 2]).callers).length = min 3 2 ∧
    (heldJobs (run (init [10, 20] 3) [0, 1]).callers).Nodup :=
  have h := atomic_claim [10, 20] 3 [0, 1, 2, 0, 1, 2]
    (by decide) (by decide) (by decide) (by decide)
  ⟨h.1, by rw [h.2.1]; rfl, h.2.2 [0, 1]⟩

end RenderServer.Claim
